import Mathlib

/-!
Shallow embedding of the algorithmic core of the ChefGenie recipe assistant:
the duration extractor, the step-ingredient matcher and the cook-mode session
state machine from `components/CookMode.tsx`, and the quantity scaler whose
call site is in `components/RecipeDetailModal.tsx`.

Strings are modelled as their character lists; JavaScript numbers holding
(integral) second counts are modelled as `Int`.
-/

namespace ChefGenie

/-- The regex class `\d` (ASCII digits). -/
def isDigitChar (c : Char) : Bool := '0' ≤ c && c ≤ '9'

/-- The regex class `\s`: space, tab, newline, vertical tab, form feed,
carriage return (the ASCII part of the JavaScript whitespace class). -/
def isSpaceChar (c : Char) : Bool :=
  c = ' ' || c = '\t' || c = '\n' || c = Char.ofNat 11 || c = Char.ofNat 12 || c = '\r'

/-- `beginsWith s pat` holds when `pat` is an initial segment of `s`
(JavaScript `startsWith` on character lists). -/
def beginsWith : List Char → List Char → Bool
  | _, [] => true
  | [], _ :: _ => false
  | c :: cs, p :: ps => (c = p) && beginsWith cs ps

/-- `occursIn pat hay` holds when `pat` is a contiguous substring of `hay`
(JavaScript `String.prototype.includes`). -/
def occursIn (pat : List Char) : List Char → Bool
  | [] => beginsWith [] pat
  | c :: cs => beginsWith (c :: cs) pat || occursIn pat cs

/-- Characters of a string, lower-cased (JavaScript `toLowerCase`, restricted
to the per-character case mapping). -/
def lowerStr (s : String) : List Char := s.data.map Char.toLower

/-- Case-insensitive `beginsWith` against an already lower-case pattern. -/
def ciBegins (s : List Char) (pat : List Char) : Bool :=
  beginsWith (s.map Char.toLower) pat

/-- Alternatives of the unit group `(?:min|minute)` of the minute regex in
`extractTimeInSeconds`. -/
def unitsMinute : List (List Char) := [['m', 'i', 'n'], ['m', 'i', 'n', 'u', 't', 'e']]

/-- Alternatives of the unit group `(?:hr|hour)` of the hour regex in
`extractTimeInSeconds`. -/
def unitsHour : List (List Char) := [['h', 'r'], ['h', 'o', 'u', 'r']]

/--
Attempt to match `(\d+(?:-\d+)?)\s*(?:u1|u2)s?` (case-insensitive) at the head
of `l`, returning the first capture group on success.

The backtracking regex is deterministic here: `\d+` never profitably gives
characters back (what follows is `-`, whitespace or a letter, never a digit),
the optional `-\d+` group succeeds exactly when a `-` followed by a digit is
present (when it is present, skipping the group always fails, since `\s*`
cannot consume the `-`), `\s*` consumes the maximal whitespace run, and the
trailing `s?` can always match empty, so the whole pattern succeeds as soon as
one unit alternative is a prefix of the rest.
-/
def tryMatchAt (units : List (List Char)) (l : List Char) : Option (List Char) :=
  let d1 := l.takeWhile isDigitChar
  if d1.isEmpty then none
  else
    let rest1 := l.dropWhile isDigitChar
    let capRest :=
      match rest1 with
      | '-' :: r =>
        let d2 := r.takeWhile isDigitChar
        if d2.isEmpty then (d1, rest1)
        else (d1 ++ '-' :: d2, r.dropWhile isDigitChar)
      | _ => (d1, rest1)
    let rest3 := capRest.2.dropWhile isSpaceChar
    if units.any (fun u => ciBegins rest3 u) then some capRest.1 else none

/-- Leftmost match of the number-unit pattern in `l` (JavaScript
`String.prototype.match` scans start positions left to right). -/
def findNumUnit (units : List (List Char)) : List Char → Option (List Char)
  | [] => none
  | c :: cs =>
    match tryMatchAt units (c :: cs) with
    | some cap => some cap
    | none => findNumUnit units cs

/-- Numeric value of a digit string (`parseFloat` on an all-digit capture is
exact, and `Math.floor` of an integral product is the identity). -/
def digitsToNat (l : List Char) : Nat :=
  l.foldl (fun n c => n * 10 + (c.toNat - 48)) 0

/-- `if (val.includes('-')) val = val.split('-')[0]`: the part of the capture
before the first dash, the whole capture when there is none. -/
def capLower (cap : List Char) : List Char :=
  if cap.contains '-' then cap.takeWhile (fun c => c ≠ '-') else cap

/--
`extractTimeInSeconds` from `CookMode.tsx` (lines 11-28): try the minute
regex `(\d+(?:-\d+)?)\s*(?:min|minute)s?/i` first, then the hour regex
`(\d+(?:-\d+)?)\s*(?:hr|hour)s?/i`; take the lower bound of a range capture;
convert minutes with a factor of 60 and hours with 3600.
-/
def extractTimeInSeconds (text : String) : Option Int :=
  match findNumUnit unitsMinute text.data with
  | some cap => some ((digitsToNat (capLower cap) : Int) * 60)
  | none =>
    match findNumUnit unitsHour text.data with
    | some cap => some ((digitsToNat (capLower cap) : Int) * 3600)
    | none => none

example : extractTimeInSeconds "Simmer for 10 minutes" = some 600 := by decide
example : extractTimeInSeconds "Bake for 1 hour" = some 3600 := by decide
example : extractTimeInSeconds "Marinate for 10-15 mins" = some 600 := by decide
example : extractTimeInSeconds "1.5 hrs in the oven" = some 18000 := by decide
example : extractTimeInSeconds "Add salt to taste" = none := by decide

/-- A separator of the split regex `[\s-]+`: whitespace or a hyphen. -/
def isTokenSep (c : Char) : Bool := isSpaceChar c || c = '-'

/--
Worker for JavaScript `split(/[\s-]+/)`: `acc` is the reversed current token
and `inSep` records whether the previous character was a separator, so that a
run of consecutive separators produces a single cut.
-/
def splitTokensAux : List Char → List Char → Bool → List (List Char)
  | [], acc, _ => [acc.reverse]
  | c :: cs, acc, inSep =>
    if isTokenSep c then
      if inSep then splitTokensAux cs acc true
      else acc.reverse :: splitTokensAux cs [] true
    else splitTokensAux cs (c :: acc) false

/-- `name.split(/[\s-]+/)`: tokens of a string, split on runs of whitespace
and hyphens (a leading or trailing run yields an empty token, as in
JavaScript). -/
def splitTokens (s : String) : List (List Char) := splitTokensAux s.data [] false

example : splitTokens "Chicken Breast" = [['C','h','i','c','k','e','n'], ['B','r','e','a','s','t']] := by decide
example : splitTokens "" = [[]] := by decide
example : splitTokens "a--b " = [['a'], ['b'], []] := by decide

/-- `Ingredient` from `types.ts`. -/
structure Ingredient where
  name : String
  amount : String
deriving DecidableEq, Repr

/-- An ingredient spread together with its `originalIndex` tag, as built by
`recipe.ingredients.map((ing, idx) => ({ ...ing, originalIndex: idx }))`. -/
structure TaggedIngredient where
  name : String
  amount : String
  originalIndex : Nat
deriving DecidableEq, Repr

/--
The filter predicate of `stepIngredients` in `CookMode.tsx` (lines 120-129):
the full ingredient name occurs case-insensitively in the step text, or some
token of the name (split on whitespace and hyphens) of length at least 4
occurs case-insensitively in the step text.
-/
def matchesIngredient (stepText : String) (name : String) : Bool :=
  occursIn (lowerStr name) (lowerStr stepText) ||
    (splitTokens name).any fun part =>
      decide (4 ≤ part.length) && occursIn (part.map Char.toLower) (lowerStr stepText)

/-- `stepIngredients` from `CookMode.tsx`: tag every ingredient with its
original index, then filter by `matchesIngredient` on the current step
text. -/
def stepIngredients (currentStepText : String) (ingredients : List Ingredient) :
    List TaggedIngredient :=
  ((ingredients.enum).map fun p => TaggedIngredient.mk p.2.name p.2.amount p.1).filter
    fun ing => matchesIngredient currentStepText ing.name

/-- The spec's matching rule, in its own words: "An ingredient matches if its
full name appears as a substring of the step text, OR any individual
word/token of the ingredient's name (split on whitespace and hyphens) that is
at least 4 characters long appears as a substring of the step text"
(case-insensitive). -/
def referencedBySpec (stepText : String) (name : String) : Bool :=
  occursIn (lowerStr name) (lowerStr stepText) ||
    (splitTokens name).any fun part =>
      decide (4 ≤ part.length) && occursIn (part.map Char.toLower) (lowerStr stepText)

/-- The spec's contract for the matcher: keep exactly the referenced
ingredients, "each tagged with its original position (stable ordering)" —
filter the position-enumerated list, then attach the position tag. -/
def specStepIngredients (stepText : String) (ingredients : List Ingredient) :
    List TaggedIngredient :=
  ((ingredients.enum).filter fun p => referencedBySpec stepText p.2.name).map
    fun p => TaggedIngredient.mk p.2.name p.2.amount p.1

example :
    stepIngredients "Season the chicken with salt"
      [⟨"Chicken Breast", "1"⟩, ⟨"Salt", "1 tsp"⟩] =
      [⟨"Chicken Breast", "1", 0⟩, ⟨"Salt", "1 tsp", 1⟩] := by decide

example :
    stepIngredients "Add the broth"
      [⟨"Chicken Breast", "1"⟩, ⟨"Salt", "1 tsp"⟩] = [] := by decide

/-- The cook-mode timer state of `CookMode.tsx` (the `timer` `useState`):
duration and remaining seconds, the running flag, and the step the timer was
started for. -/
structure Timer where
  duration : Int
  remaining : Int
  isRunning : Bool
  stepIndex : Nat
deriving DecidableEq, Repr

/-- The per-invocation cook-mode state: `currentStepIndex`, the optional
timer, and the checked-ingredient set, whose keys
`"stepIndex-ingredientIndex"` are modelled as pairs of indices. -/
structure Session where
  currentStepIndex : Nat
  timer : Option Timer
  checkedItems : List (Nat × Nat)
deriving DecidableEq, Repr

/-- `handleNext`: advance the step index when
`currentStepIndex < recipe.steps.length - 1` (JavaScript arithmetic, so the
comparison is over `Int`). -/
def handleNext (steps : List String) (s : Session) : Session :=
  if (s.currentStepIndex : Int) < (steps.length : Int) - 1 then
    { s with currentStepIndex := s.currentStepIndex + 1 }
  else s

/-- `handlePrev`: step back when `currentStepIndex > 0`. -/
def handlePrev (s : Session) : Session :=
  if 0 < s.currentStepIndex then { s with currentStepIndex := s.currentStepIndex - 1 }
  else s

/-- `recipe.steps[currentStepIndex]`; the component only renders with the
index in range, so an out-of-range access is modelled as the empty string. -/
def currentStepText (steps : List String) (s : Session) : String :=
  steps.getD s.currentStepIndex ""

/-- `startTimer`: guarded by the truthiness of
`detectedDuration = extractTimeInSeconds(currentStepText)` (so `0` and a
missing duration are both no-ops); creates a running timer bound to the
current step with `remaining = duration`. -/
def startTimer (steps : List String) (s : Session) : Session :=
  match extractTimeInSeconds (currentStepText steps s) with
  | some d =>
    if d ≠ 0 then
      { s with timer := some { duration := d, remaining := d, isRunning := true,
                               stepIndex := s.currentStepIndex } }
    else s
  | none => s

/-- `toggleTimer`: `prev ? { ...prev, isRunning: !prev.isRunning } : null`. -/
def toggleTimer (s : Session) : Session :=
  { s with timer :=
      match s.timer with
      | some t => some { t with isRunning := !t.isRunning }
      | none => none }

/-- `resetTimer`: `prev ? { ...prev, remaining: prev.duration, isRunning: false } : null`. -/
def resetTimer (s : Session) : Session :=
  { s with timer :=
      match s.timer with
      | some t => some { t with remaining := t.duration, isRunning := false }
      | none => none }

/-- `stopTimer`: discard the timer. -/
def stopTimer (s : Session) : Session := { s with timer := none }

/-- The `setInterval` callback of the timer effect (lines 74-93): a paused
timer is returned unchanged; `remaining <= 1` finishes the timer
(`remaining = 0`, `isRunning = false`); otherwise decrement. The interval
itself only exists while `isRunning && remaining > 0`, which the callback's
own guards subsume. -/
def tickTimer (t : Timer) : Timer :=
  if !t.isRunning then t
  else if t.remaining ≤ 1 then { t with remaining := 0, isRunning := false }
  else { t with remaining := t.remaining - 1 }

/-- One tick of the interval effect applied to the session. -/
def tick (s : Session) : Session :=
  { s with timer :=
      match s.timer with
      | some t => some (tickTimer t)
      | none => none }

/-- `toggleIngredientCheck`: flip membership of the key
`(currentStepIndex, ingredientIndex)` in the checked set. -/
def toggleIngredientCheck (s : Session) (ingredientIndex : Nat) : Session :=
  let key := (s.currentStepIndex, ingredientIndex)
  { s with checkedItems :=
      if s.checkedItems.contains key then s.checkedItems.filter (fun k => k ≠ key)
      else key :: s.checkedItems }

/-- The discrete operations of the cook-mode session. -/
inductive CookOp where
  | next
  | prev
  | start
  | toggle
  | reset
  | stop
  | tick
  | check (ingredientIndex : Nat)
deriving DecidableEq, Repr

/-- Dispatch one operation to its handler. -/
def applyOp (steps : List String) (s : Session) : CookOp → Session
  | .next => handleNext steps s
  | .prev => handlePrev s
  | .start => startTimer steps s
  | .toggle => toggleTimer s
  | .reset => resetTimer s
  | .stop => stopTimer s
  | .tick => tick s
  | .check i => toggleIngredientCheck s i

/-- The initial session state: step 0, no timer, nothing checked. -/
def initSession : Session := { currentStepIndex := 0, timer := none, checkedItems := [] }

/-- Run a sequence of operations from the initial session. -/
def runOps (steps : List String) (ops : List CookOp) : Session :=
  ops.foldl (applyOp steps) initSession

example :
    runOps ["Simmer for 10 minutes"] [CookOp.start, CookOp.tick] =
      { currentStepIndex := 0, timer := some ⟨600, 599, true, 0⟩, checkedItems := [] } := by
  decide

/-- An unreduced fraction `num / den` with a positive denominator, used to
keep the quantity-scaler arithmetic exact and kernel-computable. -/
structure Frac where
  num : Int
  den : Nat
deriving DecidableEq, Repr

/-- Fuel-based Euclidean gcd (structurally recursive so that concrete values
reduce in the kernel); with fuel at least `a` it computes `gcd a b`. -/
def gcdFuel : Nat → Nat → Nat → Nat
  | 0, _, b => b
  | _ + 1, 0, b => b
  | fuel + 1, a + 1, b => gcdFuel fuel (b % (a + 1)) (a + 1)

/-- Greatest common divisor via `gcdFuel`. -/
def natGcd (a b : Nat) : Nat := gcdFuel a a b

example : natGcd 12 18 = 6 := by decide
example : natGcd 0 7 = 7 := by decide

/--
Modelled from the spec: the leading-quantity recognizer of the Quantity
Scaler (`scaleAmount` is imported from a `utils` module that is not present
under `src`). Per spec section 4.2 it recognizes, at the start of the amount
string, an integer, a decimal, a simple fraction `a/b`, or a mixed number
`a b/c`, and returns the parsed value together with the remainder of the
string, preserved verbatim; any other string is not parseable.
-/
def parseLeadingQuantity (s : String) : Option (Frac × String) :=
  let cs := s.data
  let d1 := cs.takeWhile isDigitChar
  if d1.isEmpty then none
  else
    let a := digitsToNat d1
    let rest1 := cs.dropWhile isDigitChar
    match rest1 with
    | '/' :: r2 =>
      let d2 := r2.takeWhile isDigitChar
      if d2.isEmpty ∨ digitsToNat d2 = 0 then some (⟨(a : Int), 1⟩, String.mk rest1)
      else some (⟨(a : Int), digitsToNat d2⟩, String.mk (r2.dropWhile isDigitChar))
    | '.' :: r2 =>
      let d2 := r2.takeWhile isDigitChar
      if d2.isEmpty then some (⟨(a : Int), 1⟩, String.mk rest1)
      else
        some (⟨(a * 10 ^ d2.length + digitsToNat d2 : Nat), 10 ^ d2.length⟩,
          String.mk (r2.dropWhile isDigitChar))
    | ' ' :: r2 =>
      let d2 := r2.takeWhile isDigitChar
      match r2.dropWhile isDigitChar with
      | '/' :: r3 =>
        let d3 := r3.takeWhile isDigitChar
        if d2.isEmpty ∨ d3.isEmpty ∨ digitsToNat d3 = 0 then
          some (⟨(a : Int), 1⟩, String.mk rest1)
        else
          some (⟨(a * digitsToNat d3 + digitsToNat d2 : Nat), digitsToNat d3⟩,
            String.mk (r3.dropWhile isDigitChar))
      | _ => some (⟨(a : Int), 1⟩, String.mk rest1)
    | _ => some (⟨(a : Int), 1⟩, String.mk rest1)

/--
Modelled from the spec: formatting of the scaled number, "round the scaled
numeric result to a human-friendly precision; prefer simple fractions or at
most one decimal place": after reducing the fraction, integers are printed as
such, halves and quarters as (possibly mixed) fractions, and everything else
rounded to one decimal place.
-/
def formatQuantity (q : Frac) : String :=
  let g := natGcd q.num.natAbs q.den
  let g := if g = 0 then 1 else g
  let n : Int := q.num / (g : Int)
  let d : Nat := q.den / g
  if d = 1 then toString n
  else if d = 2 ∨ d = 4 then
    let whole : Int := n / (d : Int)
    let fracNum : Int := n - whole * (d : Int)
    if whole = 0 then toString fracNum ++ "/" ++ toString d
    else toString whole ++ " " ++ toString fracNum ++ "/" ++ toString d
  else
    let tenths : Int := (n * 10 * 2 + (d : Int)) / (2 * (d : Int))
    toString (tenths / 10) ++ "." ++ toString ((tenths % 10).natAbs)

/--
Modelled from the spec: `scaleAmount` (imported by `RecipeDetailModal.tsx`
from the absent `utils` module). When the amount string begins with a
recognizable numeric quantity, scale it by `desired / original` — treating a
non-positive original serving count as 1 — and keep the remainder of the
string verbatim; otherwise return the original string unchanged.
-/
def scaleAmount (amount : String) (originalServings targetServings : Int) : String :=
  match parseLeadingQuantity amount with
  | none => amount
  | some (q, rest) =>
    let base : Nat := if originalServings ≤ 0 then 1 else originalServings.toNat
    formatQuantity ⟨q.num * targetServings, q.den * base⟩ ++ rest

example : scaleAmount "200 g" 2 4 = "400 g" := by decide
example : scaleAmount "1/2 cup" 2 1 = "1/4 cup" := by decide
example : scaleAmount "a pinch" 2 4 = "a pinch" := by decide
example : scaleAmount "1 1/2 cups" 4 2 = "3/4 cups" := by decide

/-!  ## Theorems  -/

/--
Claim C1 (evidence of the code bug): on the input `"1.5 hrs in the oven"`
the extractor returns 18000 seconds, not the 5400 the spec (and the code's
own comment, which says the regex matches `"1.5 hrs"`) promise: the capture
group `(\d+(?:-\d+)?)` has no decimal form, so the leftmost match of the hour
regex is `"5 hrs"` and the fractional part is dropped, yielding 5 × 3600.
-/
theorem extract_fractional_hours_misparsed :
    extractTimeInSeconds "1.5 hrs in the oven" = some 18000 := by decide

/--
Claim C6: when the matched number is a range `a-b`, the lower bound is used:
a minute capture containing a dash converts as the digits before the dash
times 60, a (minute-free) hour capture containing a dash as the digits before
the dash times 3600, and concretely
`extract("Marinate for 10-15 mins") = 600`.
-/
theorem extract_range_uses_lower_bound :
    extractTimeInSeconds "Marinate for 10-15 mins" = some 600 ∧
    (∀ (text : String) (cap : List Char),
      findNumUnit unitsMinute text.data = some cap → cap.contains '-' = true →
      extractTimeInSeconds text =
        some ((digitsToNat (cap.takeWhile fun c => c ≠ '-') : Int) * 60)) ∧
    (∀ (text : String) (cap : List Char),
      findNumUnit unitsMinute text.data = none →
      findNumUnit unitsHour text.data = some cap → cap.contains '-' = true →
      extractTimeInSeconds text =
        some ((digitsToNat (cap.takeWhile fun c => c ≠ '-') : Int) * 3600)) := by
  refine ⟨by decide, ?_, ?_⟩
  · intro text cap h hdash
    have hmem : '-' ∈ cap := by simpa using hdash
    unfold extractTimeInSeconds
    rw [h]
    simp [capLower, hmem]
  · intro text cap hmin h hdash
    have hmem : '-' ∈ cap := by simpa using hdash
    unfold extractTimeInSeconds
    rw [hmin, h]
    simp [capLower, hmem]

/-- Witness for claim C6's quantified parts at the spec's own example. -/
theorem extract_range_uses_lower_bound_witness :
    extractTimeInSeconds "Marinate for 10-15 mins" =
      some ((digitsToNat (['1', '0', '-', '1', '5'].takeWhile fun c => c ≠ '-') : Int) * 60) :=
  extract_range_uses_lower_bound.2.1 "Marinate for 10-15 mins" ['1', '0', '-', '1', '5']
    (by decide) (by decide)

/--
Claim C7: the minute regex is tried before the hour regex, so whenever both
families match somewhere in the text, the extractor converts the minute
capture with a factor of 60.
-/
theorem minutes_take_priority_over_hours :
    ∀ (text : String) (capMin capHour : List Char),
      findNumUnit unitsMinute text.data = some capMin →
      findNumUnit unitsHour text.data = some capHour →
      extractTimeInSeconds text = some ((digitsToNat (capLower capMin) : Int) * 60) := by
  intro text capMin capHour hmin _
  unfold extractTimeInSeconds
  rw [hmin]

/-- Witness for claim C7: a step mentioning both 90 minutes and 2 hours is
converted from the minutes. -/
theorem minutes_take_priority_over_hours_witness :
    extractTimeInSeconds "Bake 90 mins then 2 hours" = some 5400 := by
  have h := minutes_take_priority_over_hours "Bake 90 mins then 2 hours" ['9', '0'] ['2']
    (by decide) (by decide)
  rw [h]
  decide

/--
Claim C9: whenever the amount string does not begin with a recognizable
numeric quantity, the quantity scaler returns it unchanged for every pair of
serving counts (and, being a total function, it cannot throw).
-/
theorem scaleAmount_unparsed_unchanged
    (amount : String) (originalServings targetServings : Int)
    (h : parseLeadingQuantity amount = none) :
    scaleAmount amount originalServings targetServings = amount := by
  unfold scaleAmount
  rw [h]

/-- Witness for claim C9 at the spec's example: scaling `"a pinch"` from 2 to
4 servings leaves it unchanged. -/
theorem scaleAmount_unparsed_unchanged_witness :
    scaleAmount "a pinch" 2 4 = "a pinch" :=
  scaleAmount_unparsed_unchanged "a pinch" 2 4 (by decide)

/-- Filtering after a map is filtering the composed predicate before the
map. -/
lemma filter_of_map {α β : Type} (f : α → β) (p : β → Bool) (l : List α) :
    (l.map f).filter p = (l.filter fun a => p (f a)).map f := by
  induction l with
  | nil => rfl
  | cons a t ih =>
    simp only [List.map_cons, List.filter_cons]
    cases h : p (f a) <;> simp [h, ih]

/--
Claim C3: the step-ingredient matcher returns exactly the ingredients whose
full name, or one of whose name tokens of length at least 4 (split on
whitespace and hyphens), occurs case-insensitively in the step text; each is
tagged with its original index and the original list order is preserved —
i.e. the code's tag-then-filter pipeline coincides with the spec's
filter-then-tag description.
-/
theorem stepIngredients_eq_spec (text : String) (ings : List Ingredient) :
    stepIngredients text ings = specStepIngredients text ings := by
  unfold stepIngredients specStepIngredients
  rw [filter_of_map]
  rfl

/-- Every list begins with the empty pattern. -/
lemma beginsWith_empty_pat (l : List Char) : beginsWith l [] = true := by
  cases l <;> rfl

/-- The empty pattern occurs in every haystack. -/
lemma occursIn_empty_pat (hay : List Char) : occursIn [] hay = true := by
  cases hay with
  | nil => rfl
  | cons c cs => simp [occursIn, beginsWith_empty_pat]

/-- The code's match predicate accepts the empty ingredient name against any
step text (the full-name check is substring inclusion, and the empty string
is a substring of everything). -/
lemma matchesIngredient_empty_name (text : String) :
    matchesIngredient text "" = true := by
  have h : lowerStr "" = [] := rfl
  simp [matchesIngredient, h, occursIn_empty_pat]

/-- Position-indexed membership in `enumFrom`. -/
lemma get_mem_enumFrom {α : Type} :
    ∀ (l : List α) (n i : Nat) (h : i < l.length), (n + i, l.get ⟨i, h⟩) ∈ l.enumFrom n := by
  intro l
  induction l with
  | nil => intro n i h; exact absurd h (Nat.not_lt_zero i)
  | cons a t ih =>
    intro n i h
    cases i with
    | zero => simp [List.enumFrom]
    | succ j =>
      have hj : j < t.length := Nat.lt_of_succ_lt_succ h
      have heq : n + (j + 1) = (n + 1) + j := by omega
      rw [heq]
      exact List.mem_cons_of_mem _ (ih (n + 1) j hj)

/-- Position-indexed membership in `enum`. -/
lemma get_mem_enum {α : Type} (l : List α) (i : Nat) (h : i < l.length) :
    (i, l.get ⟨i, h⟩) ∈ l.enum := by
  have := get_mem_enumFrom l 0 i h
  simpa [List.enum] using this

/--
Claim C10 (implicit): an ingredient whose name is the empty string is
included in the matcher's result for every step text, because the full-name
check is substring inclusion and the empty string is a substring of every
string.
-/
theorem emptyName_always_included (text : String) (ings : List Ingredient) (i : Nat)
    (h : i < ings.length) (hname : (ings.get ⟨i, h⟩).name = "") :
    ∃ t ∈ stepIngredients text ings, t.originalIndex = i ∧ t.name = "" := by
  refine ⟨⟨"", (ings.get ⟨i, h⟩).amount, i⟩, ?_, rfl, rfl⟩
  unfold stepIngredients
  apply List.mem_filter.mpr
  constructor
  · apply List.mem_map.mpr
    refine ⟨(i, ings.get ⟨i, h⟩), get_mem_enum ings i h, ?_⟩
    have hname2 : ings[i].name = "" := hname
    simp [hname2]
  · simpa using matchesIngredient_empty_name text

/-- Witness for claim C10: a single empty-named ingredient is matched by a
step that mentions nothing. -/
theorem emptyName_always_included_witness :
    ∃ t ∈ stepIngredients "Add the broth" [⟨"", "1"⟩], t.originalIndex = 0 ∧ t.name = "" :=
  emptyName_always_included "Add the broth" [⟨"", "1"⟩] 0 (by decide) rfl

/--
Claim C2, counterexample: toggling the pause/resume operation on an expired
timer (`remaining = 0`) is not a no-op on the session state — the running
flag still flips — so "has no effect on the session state once the timer is
expired" fails as stated.
-/
theorem toggle_on_expired_changes_state :
    toggleTimer { currentStepIndex := 2, timer := some ⟨60, 0, false, 2⟩, checkedItems := [] } ≠
      { currentStepIndex := 2, timer := some ⟨60, 0, false, 2⟩, checkedItems := [] } := by
  decide

/--
Claim C2 as amended: the toggle operation flips the running flag whenever a
timer exists — including an expired one — and is a no-op when no timer
exists; on an expired timer only the running flag changes: remaining stays 0
and the duration and bound step are untouched, so the timer stays expired.
(In the rendered UI the pause/resume control is not shown once
`remaining = 0`, which is why the spec described it as having no effect.)
-/
theorem toggleTimer_spec :
    (∀ s : Session, s.timer = none → toggleTimer s = s) ∧
    (∀ (s : Session) (t : Timer), s.timer = some t →
      (toggleTimer s).timer = some { t with isRunning := !t.isRunning }) ∧
    (∀ (s : Session) (t : Timer), s.timer = some t → t.remaining = 0 →
      ∃ t2, (toggleTimer s).timer = some t2 ∧ t2.remaining = 0 ∧
        t2.duration = t.duration ∧ t2.stepIndex = t.stepIndex) := by
  refine ⟨?_, ?_, ?_⟩
  · intro s h
    cases s
    simp_all [toggleTimer]
  · intro s t h
    simp [toggleTimer, h]
  · intro s t h hr
    exact ⟨{ t with isRunning := !t.isRunning }, by simp [toggleTimer, h], hr, rfl, rfl⟩

/-- Witness for claim C2's amended statement: a no-op without a timer, and a
flag flip on an expired timer. -/
theorem toggleTimer_spec_witness :
    toggleTimer { currentStepIndex := 0, timer := none, checkedItems := [] } =
        { currentStepIndex := 0, timer := none, checkedItems := [] } ∧
      (toggleTimer { currentStepIndex := 2, timer := some ⟨60, 0, false, 2⟩, checkedItems := [] }).timer =
        some ⟨60, 0, true, 2⟩ :=
  ⟨toggleTimer_spec.1 _ rfl, toggleTimer_spec.2.1 _ ⟨60, 0, false, 2⟩ rfl⟩

/--
Claim C4: a tick on a running timer with `remaining > 1` decrements remaining
by exactly one and leaves it running; a tick on a running timer with
`remaining = 1` moves it to the expired state (`remaining = 0`,
`isRunning = false`); and a tick on a non-running timer — in particular an
expired one — leaves the whole session unchanged.
-/
theorem tick_spec :
    (∀ (s : Session) (t : Timer), s.timer = some t → t.isRunning = true →
      1 < t.remaining →
      (tick s).timer = some { t with remaining := t.remaining - 1 } ∧
        (tick s).timer.map Timer.isRunning = some true) ∧
    (∀ (s : Session) (t : Timer), s.timer = some t → t.isRunning = true →
      t.remaining = 1 →
      (tick s).timer = some { t with remaining := 0, isRunning := false }) ∧
    (∀ (s : Session) (t : Timer), s.timer = some t → t.isRunning = false →
      tick s = s) := by
  refine ⟨?_, ?_, ?_⟩
  · intro s t h hr hgt
    have h1 : ¬ t.remaining ≤ 1 := by omega
    constructor
    · simp [tick, h, tickTimer, hr, h1]
    · simp [tick, h, tickTimer, hr, h1]
  · intro s t h hr hrem
    simp [tick, h, tickTimer, hr, hrem]
  · intro s t h hr
    cases s
    simp_all [tick, tickTimer]

/-- Witness for claim C4: ticking 600 → 599 while running, 1 → expired, and
an expired timer is left unchanged. -/
theorem tick_spec_witness :
    (tick { currentStepIndex := 0, timer := some ⟨600, 600, true, 0⟩, checkedItems := [] }).timer =
        some ⟨600, 599, true, 0⟩ ∧
      (tick { currentStepIndex := 0, timer := some ⟨600, 1, true, 0⟩, checkedItems := [] }).timer =
        some ⟨600, 0, false, 0⟩ ∧
      tick { currentStepIndex := 0, timer := some ⟨600, 0, false, 0⟩, checkedItems := [] } =
        { currentStepIndex := 0, timer := some ⟨600, 0, false, 0⟩, checkedItems := [] } :=
  ⟨(tick_spec.1 _ ⟨600, 600, true, 0⟩ rfl rfl (by decide)).1,
   tick_spec.2.1 _ ⟨600, 1, true, 0⟩ rfl rfl rfl,
   tick_spec.2.2 _ ⟨600, 0, false, 0⟩ rfl rfl⟩

/-- The timer bounds invariant of the spec's data model section. -/
def TimerInv (t : Timer) : Prop := 0 ≤ t.remaining ∧ t.remaining ≤ t.duration

/-- Every present timer of the session satisfies the bounds invariant. -/
def SessionInv (s : Session) : Prop := ∀ t, s.timer = some t → TimerInv t

/-- Extracted durations are non-negative (a digit count times 60 or 3600). -/
lemma extract_nonneg {text : String} {d : Int}
    (h : extractTimeInSeconds text = some d) : 0 ≤ d := by
  unfold extractTimeInSeconds at h
  cases h1 : findNumUnit unitsMinute text.data with
  | some cap =>
    rw [h1] at h
    simp only [Option.some.injEq] at h
    subst h
    positivity
  | none =>
    rw [h1] at h
    cases h2 : findNumUnit unitsHour text.data with
    | some cap =>
      rw [h2] at h
      simp only [Option.some.injEq] at h
      subst h
      positivity
    | none =>
      rw [h2] at h
      exact absurd h (by simp)

/-- `handleNext` leaves the timer untouched. -/
lemma handleNext_timer (steps : List String) (s : Session) :
    (handleNext steps s).timer = s.timer := by
  unfold handleNext; split <;> rfl

/-- `handleNext` leaves the checked set untouched. -/
lemma handleNext_checked (steps : List String) (s : Session) :
    (handleNext steps s).checkedItems = s.checkedItems := by
  unfold handleNext; split <;> rfl

/-- `handlePrev` leaves the timer untouched. -/
lemma handlePrev_timer (s : Session) : (handlePrev s).timer = s.timer := by
  unfold handlePrev; split <;> rfl

/-- `handlePrev` leaves the checked set untouched. -/
lemma handlePrev_checked (s : Session) :
    (handlePrev s).checkedItems = s.checkedItems := by
  unfold handlePrev; split <;> rfl

/-- Toggling an ingredient checkbox leaves the timer untouched. -/
lemma toggleIngredientCheck_timer (s : Session) (i : Nat) :
    (toggleIngredientCheck s i).timer = s.timer := rfl

/-- Every operation preserves the timer bounds invariant. -/
lemma sessionInv_applyOp (steps : List String) (s : Session) (op : CookOp)
    (h : SessionInv s) : SessionInv (applyOp steps s op) := by
  cases op with
  | next =>
    intro t ht
    rw [show applyOp steps s .next = handleNext steps s from rfl, handleNext_timer] at ht
    exact h t ht
  | prev =>
    intro t ht
    rw [show applyOp steps s .prev = handlePrev s from rfl, handlePrev_timer] at ht
    exact h t ht
  | check i =>
    intro t ht
    rw [show applyOp steps s (.check i) = toggleIngredientCheck s i from rfl,
      toggleIngredientCheck_timer] at ht
    exact h t ht
  | stop =>
    intro t ht
    simp [applyOp, stopTimer] at ht
  | start =>
    intro t ht
    rw [show applyOp steps s .start = startTimer steps s from rfl] at ht
    unfold startTimer at ht
    split at ht
    next d heq =>
      split at ht
      · simp only [Option.some.injEq] at ht
        subst ht
        exact ⟨extract_nonneg heq, le_refl d⟩
      · exact h t ht
    next heq => exact h t ht
  | toggle =>
    intro t ht
    rw [show applyOp steps s .toggle = toggleTimer s from rfl] at ht
    unfold toggleTimer at ht
    cases h1 : s.timer with
    | none => rw [h1] at ht; simp at ht
    | some t0 =>
      rw [h1] at ht
      simp only [Option.some.injEq] at ht
      subst ht
      exact h t0 h1
  | reset =>
    intro t ht
    rw [show applyOp steps s .reset = resetTimer s from rfl] at ht
    unfold resetTimer at ht
    cases h1 : s.timer with
    | none => rw [h1] at ht; simp at ht
    | some t0 =>
      rw [h1] at ht
      simp only [Option.some.injEq] at ht
      subst ht
      have h0 := h t0 h1
      exact ⟨le_trans h0.1 h0.2, le_refl _⟩
  | tick =>
    intro t ht
    rw [show applyOp steps s .tick = tick s from rfl] at ht
    unfold tick at ht
    cases h1 : s.timer with
    | none => rw [h1] at ht; simp at ht
    | some t0 =>
      rw [h1] at ht
      simp only [Option.some.injEq] at ht
      subst ht
      have h0 := h t0 h1
      by_cases hb : t0.isRunning
      · by_cases h2 : t0.remaining ≤ 1
        · have heq : tickTimer t0 = { t0 with remaining := 0, isRunning := false } := by
            simp [tickTimer, hb, h2]
          rw [heq]
          exact ⟨le_refl 0, le_trans h0.1 h0.2⟩
        · have heq : tickTimer t0 = { t0 with remaining := t0.remaining - 1 } := by
            simp [tickTimer, hb, h2]
          rw [heq]
          have h01 := h0.1
          have h02 := h0.2
          constructor <;> dsimp <;> omega
      · have heq : tickTimer t0 = t0 := by
          simp [tickTimer, hb]
        rw [heq]
        exact h0

/-- The timer bounds invariant holds in every reachable session state. -/
lemma sessionInv_runOps (steps : List String) (ops : List CookOp) :
    SessionInv (runOps steps ops) := by
  have hgen : ∀ (l : List CookOp) (s : Session), SessionInv s →
      SessionInv (l.foldl (applyOp steps) s) := by
    intro l
    induction l with
    | nil => intro s hs; exact hs
    | cons op rest ih =>
      intro s hs
      exact ih (applyOp steps s op) (sessionInv_applyOp steps s op hs)
  refine hgen ops initSession ?_
  intro t ht
  simp [initSession] at ht

/--
Claim C5: in every reachable session state the timer satisfies
`0 ≤ remaining ≤ duration`; a tick never restarts an expired timer
(`remaining` stays 0 and the duration is kept); and reset is the operation
that takes `remaining` back to the full duration, with the running flag
cleared.
-/
theorem timer_invariant :
    (∀ (steps : List String) (ops : List CookOp) (t : Timer),
      (runOps steps ops).timer = some t →
      0 ≤ t.remaining ∧ t.remaining ≤ t.duration) ∧
    (∀ (s : Session) (t : Timer), s.timer = some t → t.remaining = 0 →
      ∃ t2, (tick s).timer = some t2 ∧ t2.remaining = 0 ∧ t2.duration = t.duration) ∧
    (∀ (s : Session) (t : Timer), s.timer = some t →
      (resetTimer s).timer = some { t with remaining := t.duration, isRunning := false }) := by
  refine ⟨fun steps ops t ht => sessionInv_runOps steps ops t ht, ?_, ?_⟩
  · intro s t h hr
    refine ⟨tickTimer t, by simp [tick, h], ?_, ?_⟩
    · by_cases hb : t.isRunning <;> simp [tickTimer, hb, hr]
    · by_cases hb : t.isRunning <;> by_cases h2 : t.remaining ≤ 1 <;>
        simp [tickTimer, hb, h2]
  · intro s t h
    simp [resetTimer, h]

/-- Witness for claim C5: after starting a 600-second timer and one tick the
bounds hold concretely; a tick keeps an expired timer at 0; reset restores
the full duration. -/
theorem timer_invariant_witness :
    ((0 : Int) ≤ 599 ∧ (599 : Int) ≤ 600) ∧
      (∃ t2,
        (tick { currentStepIndex := 0, timer := some ⟨600, 0, false, 0⟩, checkedItems := [] }).timer =
            some t2 ∧
          t2.remaining = 0 ∧ t2.duration = 600) ∧
      (resetTimer { currentStepIndex := 0, timer := some ⟨600, 0, false, 0⟩, checkedItems := [] }).timer =
        some ⟨600, 600, false, 0⟩ :=
  ⟨timer_invariant.1 ["Simmer for 10 minutes"] [CookOp.start, CookOp.tick]
      ⟨600, 599, true, 0⟩ (by decide),
   timer_invariant.2.1 _ ⟨600, 0, false, 0⟩ rfl rfl,
   timer_invariant.2.2 _ ⟨600, 0, false, 0⟩ rfl⟩

/--
Claim C8: Next and Prev change only the current step index — the timer (all
of its fields) and the checked-ingredient set are untouched — and the index
moves by ±1 clamped to `[0, stepCount - 1]`: Prev computes the truncated
predecessor, and Next, from any in-range index, computes
`min (index + 1) (stepCount - 1)`.
-/
theorem navigation_frame :
    ∀ (steps : List String) (s : Session),
      (handleNext steps s).timer = s.timer ∧
      (handleNext steps s).checkedItems = s.checkedItems ∧
      (handlePrev s).timer = s.timer ∧
      (handlePrev s).checkedItems = s.checkedItems ∧
      (handlePrev s).currentStepIndex = s.currentStepIndex - 1 ∧
      (s.currentStepIndex < steps.length →
        (handleNext steps s).currentStepIndex =
          min (s.currentStepIndex + 1) (steps.length - 1)) := by
  intro steps s
  refine ⟨handleNext_timer steps s, handleNext_checked steps s, handlePrev_timer s,
    handlePrev_checked s, ?_, ?_⟩
  · unfold handlePrev
    split
    · rfl
    · omega
  · intro hlt
    unfold handleNext
    split
    · dsimp
      rw [Nat.min_def]
      split <;> omega
    · rw [Nat.min_def]
      split <;> omega

/-- Witness for claim C8, the spec's scenario: a timer started on step 2
survives a Next navigation unchanged, and the index is clamped. -/
theorem navigation_frame_witness :
    (handleNext ["a", "b", "c", "d", "e"]
        { currentStepIndex := 2, timer := some ⟨600, 600, true, 2⟩,
          checkedItems := [] }).timer = some ⟨600, 600, true, 2⟩ ∧
      (handleNext ["a", "b", "c", "d", "e"]
          { currentStepIndex := 2, timer := some ⟨600, 600, true, 2⟩,
            checkedItems := [] }).currentStepIndex = min 3 4 :=
  ⟨(navigation_frame ["a", "b", "c", "d", "e"]
      { currentStepIndex := 2, timer := some ⟨600, 600, true, 2⟩, checkedItems := [] }).1,
   (navigation_frame ["a", "b", "c", "d", "e"]
      { currentStepIndex := 2, timer := some ⟨600, 600, true, 2⟩,
        checkedItems := [] }).2.2.2.2.2 (by decide)⟩

end ChefGenie
